import Mathlib

/-!
Verification of the decentration-engine model gateway and orchestrator.

This file embeds, in Lean, the parts of the repository that the verified
properties speak about:

* `app/connections/openai_client.py` — the model gateway: model resolution
  (`_get_model`), canonical message hashing (`_hash_messages`), the retry
  loop with exponential backoff (`_retry`) and the caching `chat_completion`
  wrapper with FIFO eviction over the module-level `_CACHE` dict.
* `app/verbs.py` — the orchestrator: the LLM-call section of
  `_summarise_with_llm` (exception handling around `chat_completion` and the
  response-shape normalisation), and the `summarize_tweets` entry point.
* `app/inputs/twitter.py` — the final sorting step of `query_tweets`.

Python dicts are embedded as insertion-ordered association lists; Python
exceptions as `Except`; the wall clock only through the recorded list of
sleep durations.  SHA-256 is treated as an arbitrary function of the
canonical serialisation string (every property proved is independent of the
concrete hash function).
-/

namespace DecentrationEngine

/-- A JSON-serialisable Python value, as passed in `messages`.  Objects keep
their (insertion) key order, mirroring Python dicts. -/
inductive JVal where
  | jnull : JVal
  | jbool : Bool → JVal
  | jnum : Int → JVal
  | jstr : String → JVal
  | jarr : List JVal → JVal
  | jobj : List (String × JVal) → JVal

/-- Escaping of one character as `json.dumps` does (the cases relevant to the
claims: quote and backslash; other characters pass through). -/
def jsonEscapeChar (c : Char) : String :=
  if c = '"' then "\\\""
  else if c = '\\' then "\\\\"
  else String.singleton c

/-- Rendering of a string literal as `json.dumps` does. -/
def jsonQuote (s : String) : String :=
  "\"" ++ String.join (s.data.map jsonEscapeChar) ++ "\""

/-- Comma-join, mirroring `separators=(",", ":")`. -/
def commaJoin : List String → String
  | [] => ""
  | [x] => x
  | x :: xs => x ++ "," ++ commaJoin xs

/-- Key comparison used by `sort_keys=True`: Python string `<=`, on a
rendered `(key, serialised value)` member. -/
def keyLE (a b : String × String) : Bool := a.1 ≤ b.1

/-- Render one already-serialised object member as `"key":value`. -/
def renderField (kv : String × String) : String :=
  jsonQuote kv.1 ++ ":" ++ kv.2

mutual
/-- Canonical serialisation `json.dumps(v, sort_keys=True, separators=(",",
":"))` used by `_hash_messages`.  Object members are sorted by key
(recursively, as `sort_keys` applies at every level).  The members are
rendered first and the rendered `(key, value-string)` pairs are then sorted
by key: the stable key-based sort commutes with rendering, so the output
string is the one `json.dumps` produces. -/
def dumps : JVal → String
  | .jnull => "null"
  | .jbool true => "true"
  | .jbool false => "false"
  | .jnum n => toString n
  | .jstr s => jsonQuote s
  | .jarr xs => "[" ++ commaJoin (dumpsList xs) ++ "]"
  | .jobj fs =>
      "\x7b" ++ commaJoin (((dumpsFields fs).mergeSort keyLE).map renderField) ++ "\x7d"

def dumpsList : List JVal → List String
  | [] => []
  | x :: xs => dumps x :: dumpsList xs

def dumpsFields : List (String × JVal) → List (String × String)
  | [] => []
  | (k, v) :: fs => (k, dumps v) :: dumpsFields fs
end

/-- Model of `_hash_messages(messages)`: SHA-256 of the canonical serialisation of the
message list.  The digest function is a parameter `h`; every property below
holds for an arbitrary `h`, in particular for SHA-256. -/
def hash_messages (h : String → String) (messages : List JVal) : String :=
  h (dumps (.jarr messages))

/-- Python `m or d` on an optional string: `None` and `""` are falsy. -/
def pyOrStr (m : Option String) (d : String) : String :=
  match m with
  | none => d
  | some s => if s = "" then d else s

/-- Model of `_DEFAULT_MODEL = os.getenv("OPENAI_MODEL", "gpt-4o")`, as a function of
the `OPENAI_MODEL` environment variable. -/
def DEFAULT_MODEL (envModel : Option String) : String :=
  envModel.getD "gpt-4o"

/-- Model of `_get_model(model)`: resolve `model or _DEFAULT_MODEL`. -/
def get_model (envModel : Option String) (model : Option String) : String :=
  pyOrStr model (DEFAULT_MODEL envModel)

/-- Model of `_MAX_CACHE_SIZE = 256`. -/
def MAX_CACHE_SIZE : Nat := 256

section Gateway

variable {ε α : Type}

/-- The retry loop of `_retry`, unrolled over the remaining retry budget.
`backend i` is the outcome of the `i`-th invocation of the wrapped
callable (the call counter models the stateful backend); `remaining` is
`max_retries - attempt`.  Returns the final outcome, the number of backend
invocations made, and the list of back-off sleeps performed (in seconds, in
order). -/
def retryLoop (backend : Nat → Except ε α) (callIdx : Nat) (remaining : Nat)
    (delay backoff : ℚ) : Except ε α × Nat × List ℚ :=
  match backend callIdx with
  | .ok v => (.ok v, 1, [])
  | .error e =>
    match remaining with
    | 0 => (.error e, 1, [])
    | r + 1 =>
      let rest := retryLoop backend (callIdx + 1) r (delay * backoff) backoff
      (rest.1, rest.2.1 + 1, delay :: rest.2.2)

/-- Model of `_retry(fn, max_retries, backoff_factor, initial_delay)`. -/
def retryCall (backend : Nat → Except ε α) (max_retries : Nat)
    (backoff_factor initial_delay : ℚ) : Except ε α × Nat × List ℚ :=
  retryLoop backend 0 max_retries initial_delay backoff_factor

/-- Membership test `key in _CACHE` on the insertion-ordered dict. -/
def dictMem (c : List (String × α)) (k : String) : Bool :=
  c.any (fun p => p.1 = k)

/-- Dict lookup `_CACHE[key]`. -/
def dictLookup (c : List (String × α)) (k : String) : Option α :=
  (c.find? (fun p => p.1 = k)).map Prod.snd

/-- Dict assignment `_CACHE[key] = v`: update in place when the key exists,
append otherwise (Python dicts preserve insertion order). -/
def dictSet (c : List (String × α)) (k : String) (v : α) : List (String × α) :=
  if dictMem c k then c.map (fun p => if p.1 = k then (k, v) else p)
  else c ++ [(k, v)]

/-- Model of `_CACHE.pop(next(iter(_CACHE)))`: drop the first-inserted entry.  On an
empty dict the source catches the `StopIteration` and does nothing, which
coincides with `tail [] = []`. -/
def dictPopFirst (c : List (String × α)) : List (String × α) :=
  c.tail

/-- The outcome of one `chat_completion` call: the returned value or raised
exception, the number of backend invocations, the back-off sleeps, and the
cache contents after the call. -/
structure GatewayOutcome (ε α : Type) where
  result : Except ε α
  backendCalls : Nat
  sleeps : List ℚ
  cacheAfter : List (String × α)
deriving Repr

/-- The cache key `f"{resolved_model}:{_hash_messages(messages)}"`. -/
def gatewayKey (h : String → String) (envModel : Option String)
    (model : Option String) (messages : List JVal) : String :=
  get_model envModel model ++ ":" ++ hash_messages h messages

/-- Model of `chat_completion(messages, model=model, stream=stream, cache=cache,
max_retries=max_retries)`, generalised over the cache bound `maxCache`
(the source fixes `maxCache = _MAX_CACHE_SIZE = 256`, see
`chat_completion`).  State (the module-level `_CACHE`) is passed explicitly.
The backend's transient failures and final value are `backend`, indexed by
invocation count; a raised transient error is `Except.error`.  `_retry` is
entered with the source defaults `backoff_factor=2.0`, `initial_delay=1.0`. -/
def chat_completionGen (maxCache : Nat) (h : String → String)
    (envModel : Option String) (backend : Nat → Except ε α)
    (messages : List JVal) (model : Option String) (stream cache : Bool)
    (max_retries : Nat) (CACHE : List (String × α)) : GatewayOutcome ε α :=
  let cacheKey := if cache && !stream then gatewayKey h envModel model messages else ""
  let hit : Option α := if cache && !stream then dictLookup CACHE cacheKey else none
  match hit with
  | some v => ⟨.ok v, 0, [], CACHE⟩
  | none =>
    let r := retryCall backend max_retries 2 1
    match r.1 with
    | .ok v =>
      let CACHE2 :=
        if cache && !stream then
          dictSet (if maxCache ≤ CACHE.length then dictPopFirst CACHE else CACHE) cacheKey v
        else CACHE
      ⟨.ok v, r.2.1, r.2.2, CACHE2⟩
    | .error e => ⟨.error e, r.2.1, r.2.2, CACHE⟩

/-- Model of `chat_completion` with the source's cache bound `_MAX_CACHE_SIZE`. -/
def chat_completion (h : String → String) (envModel : Option String)
    (backend : Nat → Except ε α) (messages : List JVal) (model : Option String)
    (stream cache : Bool) (max_retries : Nat) (CACHE : List (String × α)) :
    GatewayOutcome ε α :=
  chat_completionGen MAX_CACHE_SIZE h envModel backend messages model stream cache
    max_retries CACHE

end Gateway

/-- A sequence of non-streaming cache-enabled `chat_completion` calls (each
a backend and a message list, dispatched with `model=None`,
`max_retries=6`), threading the module-level `_CACHE` from call to call;
returns the final cache contents. -/
def runCalls {ε α : Type} (maxCache : Nat) (h : String → String)
    (envModel : Option String) :
    List ((Nat → Except ε α) × List JVal) → List (String × α) → List (String × α)
  | [], CACHE => CACHE
  | bm :: rest, CACHE =>
      runCalls maxCache h envModel rest
        (chat_completionGen maxCache h envModel bm.1 bm.2 none false true 6 CACHE).cacheAfter

/-- Every cache state observed while running `runCalls` (before each call,
and after the last). -/
def cacheStates {ε α : Type} (maxCache : Nat) (h : String → String)
    (envModel : Option String) :
    List ((Nat → Except ε α) × List JVal) → List (String × α) →
      List (List (String × α))
  | [], CACHE => [CACHE]
  | bm :: rest, CACHE =>
      CACHE :: cacheStates maxCache h envModel rest
        (chat_completionGen maxCache h envModel bm.1 bm.2 none false true 6 CACHE).cacheAfter

/-! ## `app/verbs.py` — response normalisation and orchestration -/

/-- A Python runtime value as handled by `_summarise_with_llm` when it
inspects the gateway response (strings, ints, `None`, booleans, lists and
string-keyed dicts cover every JSON-derived response shape). -/
inductive PyVal where
  | pnone : PyVal
  | pbool : Bool → PyVal
  | pint : Int → PyVal
  | pstr : String → PyVal
  | plist : List PyVal → PyVal
  | pdict : List (String × PyVal) → PyVal

/-- Python exceptions arising in the embedded fragments. -/
inductive PyErr where
  | keyError : PyErr
  | indexError : PyErr
  | typeError : PyErr
  | valueError : PyErr
deriving Repr, DecidableEq

/-- A Python subscript `x[k]` argument: a string or a (non-negative) int. -/
inductive PyKey where
  | ks : String → PyKey
  | ki : Nat → PyKey

/-- Join rendered elements with `", "`, as Python container `repr` does. -/
def commaSpaceJoin : List String → String
  | [] => ""
  | [x] => x
  | x :: xs => x ++ ", " ++ commaSpaceJoin xs

mutual
/-- Python `repr` of a value (quote-switching inside string repr is not
modelled; only the shape of the rendering matters for the claims). -/
def pyRepr : PyVal → String
  | .pnone => "None"
  | .pbool true => "True"
  | .pbool false => "False"
  | .pint n => toString n
  | .pstr s => "\x27" ++ s ++ "\x27"
  | .plist xs => "[" ++ commaSpaceJoin (pyReprList xs) ++ "]"
  | .pdict fs => "\x7b" ++ commaSpaceJoin (pyReprFields fs) ++ "\x7d"

def pyReprList : List PyVal → List String
  | [] => []
  | x :: xs => pyRepr x :: pyReprList xs

def pyReprFields : List (String × PyVal) → List String
  | [] => []
  | (k, v) :: fs => ("\x27" ++ k ++ "\x27: " ++ pyRepr v) :: pyReprFields fs
end

/-- Python `str(x)`: a string is returned bare, everything else as `repr`. -/
def pyStr : PyVal → String
  | .pstr s => s
  | .pnone => pyRepr .pnone
  | .pbool b => pyRepr (.pbool b)
  | .pint n => pyRepr (.pint n)
  | .plist xs => pyRepr (.plist xs)
  | .pdict fs => pyRepr (.pdict fs)

/-- Python subscripting `x[k]` on the value shapes above: dict lookup
(`KeyError` when absent — also for an int subscript on a string-keyed
dict), list indexing (`IndexError` out of range), string indexing, and
`TypeError` for every unsubscriptable combination. -/
def pySubscript : PyVal → PyKey → Except PyErr PyVal
  | .pdict fs, .ks s =>
      match fs.find? (fun p => p.1 = s) with
      | some p => .ok p.2
      | none => .error .keyError
  | .pdict _, .ki _ => .error .keyError
  | .plist xs, .ki n =>
      if h : n < xs.length then .ok (xs.get ⟨n, h⟩) else .error .indexError
  | .plist _, .ks _ => .error .typeError
  | .pstr s, .ki n =>
      if h : n < s.data.length then .ok (.pstr (String.singleton (s.data.get ⟨n, h⟩)))
      else .error .indexError
  | .pstr _, .ks _ => .error .typeError
  | .pnone, _ => .error .typeError
  | .pbool _, _ => .error .typeError
  | .pint _, _ => .error .typeError

/-- The field access `response["choices"][0]["message"]["content"]`. -/
def choicesPath (r : PyVal) : Except PyErr PyVal := do
  let a ← pySubscript r (.ks "choices")
  let b ← pySubscript a (.ki 0)
  let c ← pySubscript b (.ks "message")
  pySubscript c (.ks "content")

/-- The response-shape handling of `_summarise_with_llm` (verbs.py, the
code after the LLM call): a `str` is returned as-is; for a `dict` the
nested `choices[0].message.content` access is attempted and only
`KeyError`/`IndexError` are caught (falling back to `str(response)`) —
any other exception (notably `TypeError`) propagates; every other value
is rendered with `str()`. -/
def normalizeResponse (r : PyVal) : Except PyErr PyVal :=
  match r with
  | .pstr _ => .ok r
  | .pdict fs =>
      match choicesPath (.pdict fs) with
      | .ok v => .ok v
      | .error .keyError => .ok (.pstr (pyStr (.pdict fs)))
      | .error .indexError => .ok (.pstr (pyStr (.pdict fs)))
      | .error e => .error e
  | v => .ok (.pstr (pyStr v))

/-- The LLM-call section of `_summarise_with_llm` (verbs.py): the call to
`chat_completion` is wrapped in `try/except Exception`, and a raised
exception — of any kind, `ε` — is logged and replaced by a placeholder
string; a returned response is shape-normalised. -/
def summariseLLMCall {ε : Type} (call : Except ε PyVal) : Except PyErr PyVal :=
  match call with
  | .error _ => .ok (.pstr "(LLM call failed – see logs for details)")
  | .ok r => normalizeResponse r

/-! ## `app/inputs/twitter.py` — feed ordering, and `summarize_tweets` -/

/-- One record produced by `query_tweets`: `id`, `author`, `timestamp`
(epoch seconds, `none` when the tweet carries no `created_at`), `text`. -/
structure Tweet where
  tid : Nat
  author : String
  timestamp : Option Int
  text : String

/-- The sort key `t.get("timestamp", 0)`.  The `timestamp` key is always
present in the records `query_tweets` builds, so the stored value is used;
a stored `None` makes the Python comparison raise `TypeError`, so the
sorted-output property concerns runs in which every timestamp is a number
(where `getD 0` is the stored value). -/
def tweetSortKey (t : Tweet) : Int := t.timestamp.getD 0

/-- Model of `tweets.sort(key=lambda t: t.get("timestamp", 0), reverse=True)`: the
final step of `query_tweets`.  Python list sort is a stable merge sort;
`reverse=True` sorts descending while preserving the original order of
equal keys, which is `mergeSort` under the flipped key comparison. -/
def query_tweetsSort (tweets : List Tweet) : List Tweet :=
  tweets.mergeSort (fun a b => decide (tweetSortKey b ≤ tweetSortKey a))

/-- The chunk built per tweet in `summarize_tweets` (verbs.py):
`f"@{author} – {ts_iso}:\n{text}"`, where `ts_iso` is the ISO rendering of
the timestamp and the literal `"(unknown time)"` when the timestamp is
falsy (`None`, or epoch `0`).  The ISO rendering function is a parameter
`iso` (its output plays no role in the claims). -/
def tweetChunk (iso : Int → String) (t : Tweet) : String :=
  "@" ++ t.author ++ " – " ++
    (match t.timestamp with
      | some ts => if ts = 0 then "(unknown time)" else iso ts
      | none => "(unknown time)") ++
    ":\n" ++ t.text

/-- The chunk list `summarize_tweets` builds from the retrieved records,
in retrieval order. -/
def tweetChunks (iso : Int → String) (tweets : List Tweet) : List String :=
  tweets.map (tweetChunk iso)

/-- The front of `summarize_tweets` (verbs.py): the `accounts` precondition
and the retrieval-plus-chunking stage.  `adapter` is the retrieval adapter
(`twitter.query_tweets`, reached through `_retrieve_tweets`); the second
component counts how many times it was invoked.  An empty `accounts` list
raises `ValueError` (the spec's `InvalidArgument`) before any retrieval. -/
def summarize_tweetsChunks (iso : Int → String) (accounts : List String)
    (adapter : List String → List Tweet) : Except PyErr (List String) × Nat :=
  if accounts.isEmpty then (Except.error PyErr.valueError, 0)
  else (Except.ok (tweetChunks iso (adapter accounts)), 1)

/-- The per-message relation of C3: both messages are mappings holding the
same key/value members (the keys duplicate-free), in possibly different
orders. -/
def msgKeyReorder (m m2 : JVal) : Prop :=
  ∃ f f2, m = JVal.jobj f ∧ m2 = JVal.jobj f2 ∧ f.Perm f2 ∧ (f.map Prod.fst).Nodup

/-! ## Shared auxiliary lemmas -/

theorem toDigitsCore_length_ge (b : Nat) : ∀ (f n : Nat) (ds : List Char),
    ds.length ≤ (Nat.toDigitsCore b f n ds).length := by
  intro f
  induction f with
  | zero => intro n ds; simp [Nat.toDigitsCore]
  | succ f ih =>
    intro n ds
    unfold Nat.toDigitsCore
    by_cases hh : n / b = 0
    · simp [hh]
    · simp only [hh, if_neg hh]
      calc ds.length ≤ ((n % b).digitChar :: ds).length := by simp
        _ ≤ _ := ih (n / b) ((n % b).digitChar :: ds)

theorem toDigits_ne_nil (b n : Nat) : Nat.toDigits b n ≠ [] := by
  unfold Nat.toDigits
  unfold Nat.toDigitsCore
  by_cases hh : n / b = 0
  · simp [hh]
  · intro hc
    simp only [hh, if_false] at hc
    have hlen := toDigitsCore_length_ge b n (n / b) ((n % b).digitChar :: [])
    rw [hc] at hlen
    simp at hlen

theorem nat_repr_ne_empty (n : Nat) : Nat.repr n ≠ "" := by
  unfold Nat.repr
  intro h
  have hdata := congrArg String.data h
  simp only [List.asString] at hdata
  exact toDigits_ne_nil 10 n hdata

theorem append_left_one_ne_empty (a s : String) (ha : a.length = 1) :
    a ++ s ≠ "" := by
  intro h
  have h2 := congrArg String.length h
  rw [String.length_append] at h2
  have h0 : ("" : String).length = 0 := rfl
  omega

theorem int_toString_ne_empty (n : Int) : toString n ≠ "" := by
  show Int.repr n ≠ ""
  match n with
  | .ofNat m => exact nat_repr_ne_empty m
  | .negSucc m => exact append_left_one_ne_empty "-" (Nat.repr (Nat.succ m)) rfl

/-- Rendering via `str()`/`repr()` of any non-string Python value is a non-empty string
(strings render bare, possibly empty). -/
theorem pyStr_ne_empty : ∀ (v : PyVal), (∀ s, v ≠ .pstr s) → pyStr v ≠ "" := by
  intro v hv
  match v with
  | .pnone => intro h; simp [pyStr, pyRepr] at h
  | .pbool true => intro h; simp [pyStr, pyRepr] at h
  | .pbool false => intro h; simp [pyStr, pyRepr] at h
  | .pint n => exact int_toString_ne_empty n
  | .pstr s => exact absurd rfl (hv s)
  | .plist xs => exact append_left_one_ne_empty "[" _ rfl
  | .pdict fs => exact append_left_one_ne_empty "\x7b" _ rfl

/-! ## Claims -/

/-- C10: resolving the model for `chat_completion(model="")`: the empty
string is falsy in `model or _DEFAULT_MODEL`, so the resolved model is the
environment-level default (itself falling back to the hard-coded
`"gpt-4o"`), never the supplied empty string; an explicitly supplied model
name wins only when it is non-empty. -/
theorem get_model_empty_string_uses_default :
    ∀ (envModel : Option String),
      get_model envModel (some "") = DEFAULT_MODEL envModel
      ∧ get_model envModel none = DEFAULT_MODEL envModel
      ∧ ∀ s : String, s ≠ "" → get_model envModel (some s) = s := by
  intro envModel
  refine ⟨by simp [get_model, pyOrStr], rfl, ?_⟩
  intro s hs
  simp [get_model, pyOrStr, hs]

/-- Witness for C10: with `OPENAI_MODEL=env-model`, an explicit `""` model
argument resolves to `env-model`, while an explicit `gpt-3` wins. -/
theorem get_model_empty_string_uses_default_witness :
    get_model (some "env-model") (some "") = "env-model"
    ∧ get_model (some "env-model") (some "gpt-3") = "gpt-3" :=
  ⟨(get_model_empty_string_uses_default (some "env-model")).1,
   (get_model_empty_string_uses_default (some "env-model")).2.2 "gpt-3" (by decide)⟩

/-- C4: a streaming call never reads nor writes the cache, whatever the
`cache` flag: the cache after the call is the cache before it, and the
returned value is exactly what the retried backend dispatch produced. -/
theorem chat_completion_stream_bypasses_cache (ε α : Type) (h : String → String)
    (envModel : Option String) (backend : Nat → Except ε α) (messages : List JVal)
    (model : Option String) (cache : Bool) (max_retries : Nat)
    (CACHE : List (String × α)) :
    (chat_completion h envModel backend messages model true cache max_retries CACHE).cacheAfter
      = CACHE
    ∧ (chat_completion h envModel backend messages model true cache max_retries CACHE).result
      = (retryCall backend max_retries 2 1).1 := by
  unfold chat_completion chat_completionGen
  cases hr : (retryCall backend max_retries 2 1).1 <;> simp [hr]

/-- C6 counterexample: a failing model call does *not* propagate out of the
orchestrator layer — `_summarise_with_llm` catches the exception and
returns a placeholder string, a successful-looking value. -/
theorem summariseLLMCall_swallows_failure :
    summariseLLMCall (Except.error () : Except Unit PyVal)
      = Except.ok (PyVal.pstr "(LLM call failed – see logs for details)") := rfl

/-- C6 (amended): every exception raised by the model-call layer inside
`_summarise_with_llm` — including the transient/permanent backend failures
the spec tags `ModelUnavailable`/`ModelRequestError`/`BackendUnavailable` —
is caught by the `except Exception` handler and converted into the literal
placeholder summary string, so no model-call error reaches the caller of
`summarize_email`/`summarize_tweets` as a raised error. -/
theorem summariseLLMCall_error_becomes_placeholder (ε : Type) (e : ε) :
    summariseLLMCall (Except.error e : Except ε PyVal)
      = Except.ok (PyVal.pstr "(LLM call failed – see logs for details)") := rfl

/-- C8: calling `summarize_tweets` with an empty accounts list raises `ValueError`
(the spec's `InvalidArgument`) and the retrieval adapter is invoked zero
times. -/
theorem summarize_tweets_empty_accounts (iso : Int → String)
    (adapter : List String → List Tweet) :
    summarize_tweetsChunks iso [] adapter = (Except.error PyErr.valueError, 0) := rfl

/-- C9: the record list `query_tweets` returns is sorted by timestamp
descending (the sort key of a record is its stored timestamp; `query_tweets`
crashes before returning if a `None` timestamp meets a number, so every
returned list is covered), no record is dropped or duplicated, and the
chunk list `summarize_tweets` builds from it preserves that order
one-for-one. -/
theorem query_tweets_sorted_desc (iso : Int → String) (tweets : List Tweet) :
    List.Sorted (fun a b => tweetSortKey b ≤ tweetSortKey a) (query_tweetsSort tweets)
    ∧ (query_tweetsSort tweets).Perm tweets
    ∧ tweetChunks iso (query_tweetsSort tweets)
        = (query_tweetsSort tweets).map (tweetChunk iso) := by
  refine ⟨?_, List.mergeSort_perm tweets _, rfl⟩
  have hs := @List.sorted_mergeSort Tweet
    (fun a b : Tweet => decide (tweetSortKey b ≤ tweetSortKey a))
    (fun a b c hab hbc => by
      simp only [decide_eq_true_eq] at *
      omega)
    (fun a b => by
      simp only [Bool.or_eq_true, decide_eq_true_eq]
      exact Int.le_total _ _)
    tweets
  exact hs.imp (fun hab => of_decide_eq_true hab)

/-- C7 counterexample: the normalizer does *not* return a textual fallback
for every malformed structured response — when `response["choices"]` holds
an int, the chained subscript raises `TypeError`, which the
`except (KeyError, IndexError)` clause does not catch, so the normalizer
raises instead of degrading to `str(response)`. -/
theorem normalizeResponse_raises_on_malformed :
    normalizeResponse (PyVal.pdict [("choices", PyVal.pint 0)])
      = Except.error PyErr.typeError := rfl

/-- C7 (amended): the Response Normalizer returns a plain string for a
text value (unchanged), for a structured response whose
`choices[0].message.content` path resolves (exactly that value), and for a
path failure raising `KeyError`/`IndexError` or a non-str/non-dict value
(a non-empty `str()` rendering of the whole structure); but a malformed
structured response whose subscript chain raises `TypeError` (a
non-subscriptable or wrongly-typed intermediate) propagates that
exception. -/
theorem normalizeResponse_spec :
    (∀ s, normalizeResponse (.pstr s) = Except.ok (.pstr s))
    ∧ (∀ fs v, choicesPath (.pdict fs) = Except.ok v →
        normalizeResponse (.pdict fs) = Except.ok v)
    ∧ (∀ fs, (choicesPath (.pdict fs) = Except.error .keyError
          ∨ choicesPath (.pdict fs) = Except.error .indexError) →
        normalizeResponse (.pdict fs) = Except.ok (.pstr (pyStr (.pdict fs)))
        ∧ pyStr (.pdict fs) ≠ "")
    ∧ (∀ v : PyVal, (∀ s, v ≠ .pstr s) → (∀ fs, v ≠ .pdict fs) →
        normalizeResponse v = Except.ok (.pstr (pyStr v)) ∧ pyStr v ≠ "")
    ∧ (∀ fs, choicesPath (.pdict fs) = Except.error .typeError →
        normalizeResponse (.pdict fs) = Except.error .typeError) := by
  refine ⟨fun s => rfl, ?_, ?_, ?_, ?_⟩
  · intro fs v hv
    simp [normalizeResponse, hv]
  · intro fs hv
    have hne : pyStr (.pdict fs) ≠ "" :=
      pyStr_ne_empty (.pdict fs) (fun s h => PyVal.noConfusion h)
    rcases hv with hv | hv <;> exact ⟨by simp [normalizeResponse, hv], hne⟩
  · intro v hs hd
    have hne : pyStr v ≠ "" := pyStr_ne_empty v hs
    match v with
    | .pnone => exact ⟨rfl, hne⟩
    | .pbool b => exact ⟨rfl, hne⟩
    | .pint n => exact ⟨rfl, hne⟩
    | .plist xs => exact ⟨rfl, hne⟩
    | .pstr s => exact absurd rfl (hs s)
    | .pdict fs => exact absurd rfl (hd fs)
  · intro fs hv
    simp [normalizeResponse, hv]

/-- Witness for C7 (amended): the three graceful branches evaluated on
concrete responses — a bare string, a well-formed
`choices[0].message.content` response, and an empty dict (whose path
lookup raises `KeyError`). -/
theorem normalizeResponse_spec_witness :
    normalizeResponse (.pstr "hello") = Except.ok (.pstr "hello")
    ∧ normalizeResponse
        (.pdict [("choices", .plist [.pdict [("message",
          .pdict [("content", .pstr "summary")])]])])
      = Except.ok (.pstr "summary")
    ∧ normalizeResponse (.pdict []) = Except.ok (.pstr (pyStr (.pdict [])))
    ∧ pyStr (PyVal.pdict []) ≠ "" := by
  refine ⟨normalizeResponse_spec.1 "hello", normalizeResponse_spec.2.1 _ _ rfl, ?_⟩
  have h := normalizeResponse_spec.2.2.1 [] (Or.inl rfl)
  exact ⟨h.1, h.2⟩

section RetryLemmas

variable {ε α : Type}

theorem delay_map_succ (k : Nat) (delay backoff : ℚ) :
    (List.range (k + 1)).map (fun i => delay * backoff ^ i)
      = delay :: (List.range k).map (fun i => delay * backoff * backoff ^ i) := by
  rw [List.range_succ_eq_map, List.map_cons, List.map_map]
  refine congrArg₂ _ (by rw [pow_zero, mul_one]) ?_
  exact congrArg (fun f => List.map f (List.range k))
    (funext fun x => by show delay * backoff ^ (x + 1) = _; rw [pow_succ]; ring)

theorem retryLoop_ok (backend : Nat → Except ε α) (efn : Nat → ε) (v : α) :
    ∀ (k start remaining : Nat) (delay backoff : ℚ),
      (∀ i, i < k → backend (start + i) = Except.error (efn (start + i))) →
      backend (start + k) = Except.ok v → k ≤ remaining →
      retryLoop backend start remaining delay backoff
        = (Except.ok v, k + 1, (List.range k).map (fun i => delay * backoff ^ i)) := by
  intro k
  induction k with
  | zero =>
    intro start remaining delay backoff _ hok _
    rw [Nat.add_zero] at hok
    simp [retryLoop, hok]
  | succ k ih =>
    intro start remaining delay backoff hfail hok hle
    have h0 : backend start = Except.error (efn start) := by
      have := hfail 0 (Nat.succ_pos k)
      rwa [Nat.add_zero] at this
    match remaining, hle with
    | r + 1, hle =>
      have ihr := ih (start + 1) r (delay * backoff) backoff
        (fun i hi => by
          have := hfail (i + 1) (Nat.succ_lt_succ hi)
          rwa [show start + (i + 1) = start + 1 + i by omega] at this)
        (by rwa [show start + 1 + k = start + (k + 1) by omega])
        (Nat.le_of_succ_le_succ hle)
      simp [retryLoop, h0, ihr, delay_map_succ]

theorem retryLoop_fail (backend : Nat → Except ε α) (efn : Nat → ε)
    (hfail : ∀ i, backend i = Except.error (efn i)) :
    ∀ (remaining start : Nat) (delay backoff : ℚ),
      retryLoop backend start remaining delay backoff
        = (Except.error (efn (start + remaining)), remaining + 1,
           (List.range remaining).map (fun i => delay * backoff ^ i)) := by
  intro remaining
  induction remaining with
  | zero =>
    intro start delay backoff
    simp [retryLoop, hfail start]
  | succ r ih =>
    intro start delay backoff
    have ihr := ih (start + 1) (delay * backoff) backoff
    rw [show start + 1 + r = start + (r + 1) by omega] at ihr
    simp [retryLoop, hfail start, ihr, delay_map_succ]

end RetryLemmas

/-- C1: retry termination of `chat_completion`.  Against a backend failing
transiently on exactly the first `k` invocations and succeeding on the
next, a call with `k ≤ max_retries` returns the success value after exactly
`k + 1` backend invocations, sleeping `initial_delay * backoff_factor ^
(attempt - 1)` seconds between attempts (the gateway enters `_retry` with
its defaults `initial_delay = 1.0`, `backoff_factor = 2.0`); a backend
failing transiently on every invocation makes exactly `max_retries + 1`
attempts and then re-raises the last transient failure — the condition the
spec tags `ModelUnavailable` (third conjunct: the same attempt and backoff
accounting for `_retry` under arbitrary `backoff_factor`/`initial_delay`). -/
theorem chat_completion_retry_spec (ε α : Type) (h : String → String)
    (envModel : Option String) (messages : List JVal) (model : Option String)
    (max_retries : Nat) (backend : Nat → Except ε α) (efn : Nat → ε) (k : Nat)
    (v : α) (CACHE : List (String × α)) :
    ((∀ i, i < k → backend i = Except.error (efn i)) → backend k = Except.ok v →
      k ≤ max_retries →
      chat_completion h envModel backend messages model false false max_retries CACHE
        = ⟨Except.ok v, k + 1, (List.range k).map (fun i => (1 : ℚ) * 2 ^ i), CACHE⟩)
    ∧ ((∀ i, backend i = Except.error (efn i)) →
      chat_completion h envModel backend messages model false false max_retries CACHE
        = ⟨Except.error (efn max_retries), max_retries + 1,
            (List.range max_retries).map (fun i => (1 : ℚ) * 2 ^ i), CACHE⟩)
    ∧ (∀ (backoff_factor initial_delay : ℚ),
      (∀ i, backend i = Except.error (efn i)) →
      retryCall backend max_retries backoff_factor initial_delay
        = (Except.error (efn max_retries), max_retries + 1,
           (List.range max_retries).map (fun i => initial_delay * backoff_factor ^ i))) := by
  refine ⟨?_, ?_, ?_⟩
  · intro hfail hok hle
    have hr := retryLoop_ok backend efn v k 0 max_retries 1 2
      (fun i hi => by simpa using hfail i hi) (by simpa using hok) hle
    simp [chat_completion, chat_completionGen, retryCall, hr]
  · intro hfail
    have hr := retryLoop_fail backend efn hfail max_retries 0 1 2
    rw [Nat.zero_add] at hr
    simp [chat_completion, chat_completionGen, retryCall, hr]
  · intro backoff_factor initial_delay hfail
    have hr := retryLoop_fail backend efn hfail max_retries 0 initial_delay backoff_factor
    rwa [Nat.zero_add] at hr

/-- Witness for C1: a backend failing twice then succeeding returns the
value in 3 attempts; a backend failing always exhausts 6 retries (7
attempts) and re-raises the last failure. -/
theorem chat_completion_retry_spec_witness :
    chat_completion (fun s => s) none
        (fun i => if i < 2 then Except.error i else Except.ok 7) [] none false false 6
        ([] : List (String × Nat))
      = ⟨Except.ok 7, 2 + 1, (List.range 2).map (fun i => (1 : ℚ) * 2 ^ i), []⟩
    ∧ chat_completion (fun s => s) none
        (fun i => (Except.error i : Except Nat Nat)) [] none false false 6
        ([] : List (String × Nat))
      = ⟨Except.error 6, 6 + 1, (List.range 6).map (fun i => (1 : ℚ) * 2 ^ i), []⟩ := by
  constructor
  · exact (chat_completion_retry_spec Nat Nat (fun s => s) none [] none 6
      (fun i => if i < 2 then Except.error i else Except.ok 7) (fun i => i) 2 7 []).1
      (fun i hi => by interval_cases i <;> rfl) rfl (by omega)
  · exact (chat_completion_retry_spec Nat Nat (fun s => s) none [] none 6
      (fun i => Except.error i) (fun i => i) 0 0 []).2.1 (fun i => rfl)

section DictLemmas

variable {α : Type}

theorem dictLookup_eq_none_iff (c : List (String × α)) (k : String) :
    dictLookup c k = none ↔ k ∉ c.map Prod.fst := by
  simp only [dictLookup, Option.map_eq_none', List.find?_eq_none, List.mem_map,
    decide_eq_true_eq]
  constructor
  · rintro hall ⟨x, hx, hk⟩
    exact hall x hx hk
  · intro hk x hx hxk
    exact hk ⟨x, hx, hxk⟩

theorem dictMem_eq_false_of_not_mem {c : List (String × α)} {k : String}
    (hk : k ∉ c.map Prod.fst) : dictMem c k = false := by
  simp only [dictMem, List.any_eq_false, decide_eq_true_eq]
  intro x hx hxk
  exact hk (List.mem_map.mpr ⟨x, hx, hxk⟩)

theorem dictSet_of_not_mem {c : List (String × α)} {k : String} (v : α)
    (hk : k ∉ c.map Prod.fst) : dictSet c k v = c ++ [(k, v)] := by
  simp [dictSet, dictMem_eq_false_of_not_mem hk]

theorem dictLookup_append_last {c : List (String × α)} {k : String} (v : α)
    (hk : k ∉ c.map Prod.fst) : dictLookup (c ++ [(k, v)]) k = some v := by
  have hnone : List.find? (fun p => p.1 = k) c = none := by
    rw [List.find?_eq_none]
    intro x hx
    simp only [decide_eq_true_eq]
    intro hxk
    exact hk (List.mem_map.mpr ⟨x, hx, hxk⟩)
  simp [dictLookup, List.find?_append, hnone]

theorem not_mem_map_tail {c : List (String × α)} {k : String}
    (hk : k ∉ c.map Prod.fst) : k ∉ c.tail.map Prod.fst := by
  intro hmem
  obtain ⟨x, hx, hxk⟩ := List.mem_map.mp hmem
  exact hk (List.mem_map.mpr ⟨x, List.tail_subset c hx, hxk⟩)

end DictLemmas

/-- C5: two consecutive identical non-streaming `chat_completion` calls
with `cache=True` (same messages, same resolved model), the first a cache
miss whose dispatch succeeds: the first call dispatches once and stores the
response, the second returns the stored value without touching the
backend — one backend invocation across both calls, equal return values. -/
theorem chat_completion_cache_pair (ε α : Type) (h : String → String)
    (envModel model : Option String) (messages : List JVal)
    (backend backend2 : Nat → Except ε α) (v : α) (CACHE : List (String × α))
    (hmiss : dictLookup CACHE (gatewayKey h envModel model messages) = none)
    (hok : backend 0 = Except.ok v) :
    (chat_completion h envModel backend messages model false true 6 CACHE).result
      = Except.ok v
    ∧ (chat_completion h envModel backend messages model false true 6 CACHE).backendCalls = 1
    ∧ (chat_completion h envModel backend2 messages model false true 6
        (chat_completion h envModel backend messages model false true 6 CACHE).cacheAfter).result
      = Except.ok v
    ∧ (chat_completion h envModel backend2 messages model false true 6
        (chat_completion h envModel backend messages model false true 6 CACHE).cacheAfter).backendCalls
      = 0 := by
  set K := gatewayKey h envModel model messages with hKdef
  have hKnotin : K ∉ CACHE.map Prod.fst := (dictLookup_eq_none_iff CACHE K).mp hmiss
  have hEnotin : K ∉ (if MAX_CACHE_SIZE ≤ CACHE.length then dictPopFirst CACHE
      else CACHE).map Prod.fst := by
    by_cases hc : MAX_CACHE_SIZE ≤ CACHE.length
    · simpa [hc, dictPopFirst] using not_mem_map_tail hKnotin
    · simpa [hc] using hKnotin
  have h1 : chat_completion h envModel backend messages model false true 6 CACHE
      = ⟨Except.ok v, 1, [],
          (if MAX_CACHE_SIZE ≤ CACHE.length then dictPopFirst CACHE else CACHE)
            ++ [(K, v)]⟩ := by
    simp [chat_completion, chat_completionGen, ← hKdef, hmiss, retryCall, retryLoop,
      hok, dictSet_of_not_mem v hEnotin]
  have h2 : dictLookup ((if MAX_CACHE_SIZE ≤ CACHE.length then dictPopFirst CACHE
      else CACHE) ++ [(K, v)]) K = some v := dictLookup_append_last v hEnotin
  rw [h1]
  refine ⟨rfl, rfl, ?_, ?_⟩ <;>
    simp [chat_completion, chat_completionGen, ← hKdef, h2]

/-- Witness for C5: an empty starting cache, `messages = []`, a backend
returning `5`; the pair of calls behaves as stated. -/
theorem chat_completion_cache_pair_witness :
    (chat_completion (fun s => s) none (fun _ => (Except.ok 5 : Except Unit Nat))
        [] none false true 6 []).result = Except.ok 5
    ∧ (chat_completion (fun s => s) none (fun _ => (Except.ok 5 : Except Unit Nat))
        [] none false true 6 []).backendCalls = 1
    ∧ (chat_completion (fun s => s) none (fun _ => (Except.error () : Except Unit Nat))
        [] none false true 6
        (chat_completion (fun s => s) none (fun _ => (Except.ok 5 : Except Unit Nat))
          [] none false true 6 []).cacheAfter).result = Except.ok 5
    ∧ (chat_completion (fun s => s) none (fun _ => (Except.error () : Except Unit Nat))
        [] none false true 6
        (chat_completion (fun s => s) none (fun _ => (Except.ok 5 : Except Unit Nat))
          [] none false true 6 []).cacheAfter).backendCalls = 0 :=
  chat_completion_cache_pair Unit Nat (fun s => s) none none []
    (fun _ => Except.ok 5) (fun _ => Except.error ()) 5 [] rfl rfl

section SerializationLemmas

theorem dumpsFields_eq_map (fs : List (String × JVal)) :
    dumpsFields fs = fs.map (fun kv => (kv.1, dumps kv.2)) := by
  induction fs with
  | nil => rfl
  | cons kv fs ih => cases kv; simp [dumpsFields, ih]

theorem dumpsList_eq_map (l : List JVal) : dumpsList l = l.map dumps := by
  induction l with
  | nil => rfl
  | cons x xs ih => simp [dumpsList, ih]

theorem keyLE_trans (a b c : String × String) :
    keyLE a b = true → keyLE b c = true → keyLE a c = true := by
  simp only [keyLE, decide_eq_true_eq]
  exact le_trans

theorem keyLE_total (a b : String × String) : (keyLE a b || keyLE b a) = true := by
  simp only [keyLE, Bool.or_eq_true, decide_eq_true_eq]
  exact le_total a.1 b.1

/-- A key-based stable sort of two permuted lists with duplicate-free keys
produces the same list. -/
theorem mergeSort_keyLE_eq_of_perm (f g : List (String × String))
    (hperm : f.Perm g) (hnodup : (f.map Prod.fst).Nodup) :
    f.mergeSort keyLE = g.mergeSort keyLE := by
  have hAB : (f.mergeSort keyLE).Perm (g.mergeSort keyLE) :=
    ((List.mergeSort_perm f keyLE).trans hperm).trans (List.mergeSort_perm g keyLE).symm
  have hNodupG : (g.map Prod.fst).Nodup :=
    ((hperm.map Prod.fst).nodup_iff).mp hnodup
  have strictSorted : ∀ (l : List (String × String)), (l.map Prod.fst).Nodup →
      List.Pairwise (fun a b : String × String => a.1 < b.1) (l.mergeSort keyLE) := by
    intro l hl
    have hle : List.Pairwise (fun a b : String × String => a.1 ≤ b.1) (l.mergeSort keyLE) :=
      (List.sorted_mergeSort keyLE_trans keyLE_total l).imp
        (fun hab => by simpa [keyLE, decide_eq_true_eq] using hab)
    have hnodup2 : ((l.mergeSort keyLE).map Prod.fst).Nodup :=
      (((List.mergeSort_perm l keyLE).map Prod.fst).nodup_iff).mpr hl
    have hne : List.Pairwise (fun a b : String × String => a.1 ≠ b.1) (l.mergeSort keyLE) :=
      List.pairwise_map.mp hnodup2
    exact (hle.and hne).imp (fun hab => lt_of_le_of_ne hab.1 hab.2)
  haveI : IsAntisymm (String × String) (fun a b => a.1 < b.1) :=
    ⟨fun a b h1 h2 => absurd h2 (lt_asymm h1)⟩
  exact List.eq_of_perm_of_sorted hAB (strictSorted f hnodup) (strictSorted g hNodupG)

/-- Serialisation of an object is invariant under reordering its members
when the keys are duplicate-free. -/
theorem dumps_jobj_perm (f g : List (String × JVal)) (hperm : f.Perm g)
    (hnodup : (f.map Prod.fst).Nodup) : dumps (.jobj f) = dumps (.jobj g) := by
  have h1 : (dumpsFields f).Perm (dumpsFields g) := by
    rw [dumpsFields_eq_map, dumpsFields_eq_map]
    exact hperm.map _
  have h2 : ((dumpsFields f).map Prod.fst).Nodup := by
    rw [dumpsFields_eq_map, List.map_map]
    exact hnodup
  have h3 := mergeSort_keyLE_eq_of_perm _ _ h1 h2
  simp [dumps, h3]

end SerializationLemmas

/-- C3: two message lists with identical logical content whose mapping keys
appear in different orders inside each message produce the same cache key
(resolved model combined with the hash of `json.dumps(messages,
sort_keys=True, separators=(",", ":"))`) — for any digest function, hence
for SHA-256. -/
theorem gatewayKey_order_independent (h : String → String)
    (envModel model : Option String) (msgs msgs2 : List JVal)
    (hrel : List.Forall₂ msgKeyReorder msgs msgs2) :
    gatewayKey h envModel model msgs = gatewayKey h envModel model msgs2 := by
  have hdumps : dumps (.jarr msgs) = dumps (.jarr msgs2) := by
    have hmap : msgs.map dumps = msgs2.map dumps := by
      induction hrel with
      | nil => rfl
      | cons hpair _ ih =>
        obtain ⟨f, f2, rfl, rfl, hperm, hnodup⟩ := hpair
        simp only [List.map_cons, ih, dumps_jobj_perm f f2 hperm hnodup]
    simp [dumps, dumpsList_eq_map, hmap]
  simp [gatewayKey, hash_messages, hdumps]

/-- Witness for C3: the same one-message list with `role`/`content` members
in the two possible orders yields equal cache keys. -/
theorem gatewayKey_order_independent_witness :
    gatewayKey (fun s => s) none none
        [JVal.jobj [("role", JVal.jstr "user"), ("content", JVal.jstr "hi")]]
      = gatewayKey (fun s => s) none none
        [JVal.jobj [("content", JVal.jstr "hi"), ("role", JVal.jstr "user")]] :=
  gatewayKey_order_independent (fun s => s) none none _ _
    (List.Forall₂.cons
      ⟨[("role", JVal.jstr "user"), ("content", JVal.jstr "hi")],
       [("content", JVal.jstr "hi"), ("role", JVal.jstr "user")],
       rfl, rfl, List.Perm.swap _ _ [], by decide⟩
      List.Forall₂.nil)

section FifoLemmas

variable {ε α : Type}

/-- One cache-enabled miss with a succeeding backend: evict the
first-inserted entry when at capacity, then append the new entry. -/
theorem chat_completionGen_step (N : Nat) (h : String → String)
    (envModel : Option String) (b : Nat → Except ε α) (m : List JVal) (v : α)
    (CACHE : List (String × α))
    (hmiss : gatewayKey h envModel none m ∉ CACHE.map Prod.fst)
    (hok : b 0 = Except.ok v) :
    (chat_completionGen N h envModel b m none false true 6 CACHE).cacheAfter
      = (if N ≤ CACHE.length then CACHE.tail else CACHE)
          ++ [(gatewayKey h envModel none m, v)] := by
  have hlook : dictLookup CACHE (gatewayKey h envModel none m) = none :=
    (dictLookup_eq_none_iff _ _).mpr hmiss
  by_cases hc : N ≤ CACHE.length
  · simp [chat_completionGen, hlook, retryCall, retryLoop, hok, dictPopFirst, hc,
      dictSet_of_not_mem v (not_mem_map_tail hmiss)]
  · simp [chat_completionGen, hlook, retryCall, retryLoop, hok, dictPopFirst, hc,
      dictSet_of_not_mem v hmiss]

theorem runCalls_closed_form (N : Nat) (hN : 1 ≤ N) (h : String → String)
    (envModel : Option String) :
    ∀ (calls : List ((Nat → Except ε α) × List JVal)) (vs : List α)
      (CACHE : List (String × α)),
      List.Forall₂ (fun bm v => bm.1 0 = Except.ok v) calls vs →
      (CACHE.map Prod.fst
        ++ calls.map (fun bm => gatewayKey h envModel none bm.2)).Nodup →
      CACHE.length ≤ N →
      runCalls N h envModel calls CACHE
        = (CACHE ++ (calls.zip vs).map
              (fun p => (gatewayKey h envModel none p.1.2, p.2))).drop
            (CACHE.length + calls.length - N) := by
  intro calls
  induction calls with
  | nil =>
    intro vs CACHE _ _ hlen
    have h0 : CACHE.length - N = 0 := by omega
    simp [runCalls, h0]
  | cons bm rest ih =>
    intro vs CACHE hok hnodup hlen
    match vs, hok with
    | v :: vs, List.Forall₂.cons hbv hrest =>
      rw [List.map_cons, List.nodup_append] at hnodup
      obtain ⟨hnodupC, hnodupKR, hdisj⟩ := hnodup
      have hKnotinC : gatewayKey h envModel none bm.2 ∉ CACHE.map Prod.fst :=
        fun hmem => hdisj hmem (List.mem_cons_self _ _)
      have hstep := chat_completionGen_step N h envModel bm.1 bm.2 v CACHE hKnotinC hbv
      by_cases hc : N ≤ CACHE.length
      · -- at capacity: CACHE.length = N, evict the head
        rw [if_pos hc] at hstep
        have hCN : CACHE.length = N := le_antisymm hlen hc
        obtain ⟨x, t, rfl⟩ : ∃ x t, CACHE = x :: t := by
          cases CACHE with
          | nil => exact absurd hCN (by simpa using Nat.ne_of_lt (by omega))
          | cons x t => exact ⟨x, t, rfl⟩
        have htl : t.length = N - 1 := by
          simpa using congrArg (· - 1) hCN
        have hEsub : ((x :: t).tail).Sublist (x :: t) := List.tail_sublist _
        have hnodup2 : ((t ++ [(gatewayKey h envModel none bm.2, v)]).map Prod.fst
            ++ rest.map (fun bm => gatewayKey h envModel none bm.2)).Nodup := by
          have hbig : ((x :: t).map Prod.fst
              ++ (gatewayKey h envModel none bm.2
                  :: rest.map (fun bm => gatewayKey h envModel none bm.2))).Nodup := by
            rw [List.nodup_append]
            exact ⟨hnodupC, hnodupKR, hdisj⟩
          refine List.Sublist.nodup ?_ hbig
          simp only [List.map_append, List.map_cons, List.map_nil, List.append_assoc,
            List.singleton_append]
          exact List.Sublist.append (List.sublist_cons_self _ _) (List.Sublist.refl _)
        have ihr := ih vs (t ++ [(gatewayKey h envModel none bm.2, v)]) hrest hnodup2
          (by simp [List.length_append]; omega)
        rw [runCalls, hstep]
        simp only [List.tail_cons]
        rw [ihr]
        simp only [List.zip_cons_cons, List.map_cons]
        have hL : (t ++ [(gatewayKey h envModel none bm.2, v)]).length
            + rest.length - N = rest.length := by
          simp [List.length_append]; omega
        have hR : (x :: t : List (String × α)).length
            + (bm :: rest).length - N = rest.length + 1 := by
          simp; omega
        rw [hL, hR, List.cons_append, List.drop_succ_cons, List.append_assoc,
          List.singleton_append]
      · -- below capacity: plain append
        rw [if_neg hc] at hstep
        have hnodup2 : ((CACHE ++ [(gatewayKey h envModel none bm.2, v)]).map Prod.fst
            ++ rest.map (fun bm => gatewayKey h envModel none bm.2)).Nodup := by
          have hbig : (CACHE.map Prod.fst
              ++ (gatewayKey h envModel none bm.2
                  :: rest.map (fun bm => gatewayKey h envModel none bm.2))).Nodup := by
            rw [List.nodup_append]
            exact ⟨hnodupC, hnodupKR, hdisj⟩
          simp only [List.map_append, List.map_cons, List.map_nil, List.append_assoc,
            List.singleton_append]
          exact hbig
        have ihr := ih vs (CACHE ++ [(gatewayKey h envModel none bm.2, v)]) hrest hnodup2
          (by simp [List.length_append]; omega)
        rw [runCalls, hstep, ihr]
        simp only [List.zip_cons_cons, List.map_cons]
        have hL : (CACHE ++ [(gatewayKey h envModel none bm.2, v)]).length
            + rest.length - N
            = CACHE.length + (bm :: rest).length - N := by
          simp [List.length_append]; omega
        rw [hL, List.append_assoc, List.singleton_append]

theorem cacheStates_bounded (N : Nat) (hN : 1 ≤ N) (h : String → String)
    (envModel : Option String) :
    ∀ (calls : List ((Nat → Except ε α) × List JVal)) (vs : List α)
      (CACHE : List (String × α)),
      List.Forall₂ (fun bm v => bm.1 0 = Except.ok v) calls vs →
      (CACHE.map Prod.fst
        ++ calls.map (fun bm => gatewayKey h envModel none bm.2)).Nodup →
      CACHE.length ≤ N →
      ∀ st ∈ cacheStates N h envModel calls CACHE, st.length ≤ N := by
  intro calls
  induction calls with
  | nil =>
    intro vs CACHE _ _ hlen st hst
    simp only [cacheStates, List.mem_singleton] at hst
    exact hst ▸ hlen
  | cons bm rest ih =>
    intro vs CACHE hok hnodup hlen st hst
    match vs, hok with
    | v :: vs, List.Forall₂.cons hbv hrest =>
      rw [List.map_cons, List.nodup_append] at hnodup
      obtain ⟨hnodupC, hnodupKR, hdisj⟩ := hnodup
      have hKnotinC : gatewayKey h envModel none bm.2 ∉ CACHE.map Prod.fst :=
        fun hmem => hdisj hmem (List.mem_cons_self _ _)
      have hstep := chat_completionGen_step N h envModel bm.1 bm.2 v CACHE hKnotinC hbv
      have hEsub : (if N ≤ CACHE.length then CACHE.tail else CACHE).Sublist CACHE := by
        by_cases hc : N ≤ CACHE.length
        · rw [if_pos hc]; exact List.tail_sublist CACHE
        · rw [if_neg hc]
      have hElen :
          (if N ≤ CACHE.length then CACHE.tail else CACHE).length + 1 ≤ N := by
        by_cases hc : N ≤ CACHE.length
        · have : CACHE.length = N := le_antisymm hlen hc
          rw [if_pos hc, List.length_tail]
          omega
        · rw [if_neg hc]
          omega
      have hnodup2 : (((if N ≤ CACHE.length then CACHE.tail else CACHE)
            ++ [(gatewayKey h envModel none bm.2, v)]).map Prod.fst
          ++ rest.map (fun bm => gatewayKey h envModel none bm.2)).Nodup := by
        have hbig : (CACHE.map Prod.fst
            ++ (gatewayKey h envModel none bm.2
                :: rest.map (fun bm => gatewayKey h envModel none bm.2))).Nodup := by
          rw [List.nodup_append]
          exact ⟨hnodupC, hnodupKR, hdisj⟩
        refine List.Sublist.nodup ?_ hbig
        simp only [List.map_append, List.map_cons, List.map_nil, List.append_assoc,
          List.singleton_append]
        exact List.Sublist.append (hEsub.map Prod.fst) (List.Sublist.refl _)
      simp only [cacheStates, List.mem_cons] at hst
      rcases hst with rfl | hst
      · exact hlen
      · rw [hstep] at hst
        exact ih vs ((if N ≤ CACHE.length then CACHE.tail else CACHE)
            ++ [(gatewayKey h envModel none bm.2, v)]) hrest hnodup2
          (by simpa [List.length_append] using hElen) st hst

end FifoLemmas

/-- C2: FIFO eviction.  Running `N + 1` successful non-streaming
cache-enabled `chat_completion` calls with pairwise-distinct cache keys
against an initially empty cache bounded at `N` (the source fixes
`N = _MAX_CACHE_SIZE = 256`) leaves exactly the last `N` inserted entries
in insertion order — the first-inserted entry and only it has been
evicted — the final cache holds exactly `N` entries, and no intermediate
cache state ever exceeds `N` entries. -/
theorem chat_completion_fifo_eviction (ε α : Type) (N : Nat) (hN : 1 ≤ N)
    (h : String → String) (envModel : Option String)
    (calls : List ((Nat → Except ε α) × List JVal)) (vs : List α)
    (hlen : calls.length = N + 1)
    (hok : List.Forall₂ (fun bm v => bm.1 0 = Except.ok v) calls vs)
    (hkeys : (calls.map (fun bm => gatewayKey h envModel none bm.2)).Nodup) :
    runCalls N h envModel calls []
      = ((calls.zip vs).map
          (fun p => (gatewayKey h envModel none p.1.2, p.2))).drop 1
    ∧ (runCalls N h envModel calls []).length = N
    ∧ ∀ st ∈ cacheStates N h envModel calls ([] : List (String × α)),
        st.length ≤ N := by
  have hvs : vs.length = N + 1 := by rw [← hok.length_eq, hlen]
  have hform := runCalls_closed_form N hN h envModel calls vs []
    hok (by simpa using hkeys) (by simp)
  have hdrop : ([] : List (String × α)).length + calls.length - N = 1 := by
    simp [hlen]
  rw [hdrop] at hform
  simp only [List.nil_append] at hform
  refine ⟨hform, ?_, cacheStates_bounded N hN h envModel calls vs []
    hok (by simpa using hkeys) (by simp)⟩
  rw [hform]
  rw [List.length_drop, List.length_map, List.length_zip, hlen, hvs]
  omega

/-- Witness for C2: a cache bounded at `N = 1`, two calls with distinct
keys (`[]` and `["x"]` as message lists): the final cache is exactly the
second entry. -/
theorem chat_completion_fifo_eviction_witness :
    runCalls 1 (fun s => s) none
        ([((fun _ => Except.ok 1), []), ((fun _ => Except.ok 2), [JVal.jstr "x"])] :
          List ((Nat → Except Unit Nat) × List JVal)) []
      = ((([((fun _ => Except.ok 1), []),
            ((fun _ => Except.ok 2), [JVal.jstr "x"])] :
          List ((Nat → Except Unit Nat) × List JVal)).zip [1, 2]).map
          (fun p => (gatewayKey (fun s => s) none none p.1.2, p.2))).drop 1
    ∧ (runCalls 1 (fun s => s) none
        ([((fun _ => Except.ok 1), []), ((fun _ => Except.ok 2), [JVal.jstr "x"])] :
          List ((Nat → Except Unit Nat) × List JVal)) []).length = 1 := by
  have happ := chat_completion_fifo_eviction Unit Nat 1 (by decide) (fun s => s) none
    ([((fun _ => Except.ok 1), []), ((fun _ => Except.ok 2), [JVal.jstr "x"])] :
      List ((Nat → Except Unit Nat) × List JVal)) [1, 2] rfl
    (List.Forall₂.cons rfl (List.Forall₂.cons rfl List.Forall₂.nil))
    (by decide)
  exact ⟨happ.1, happ.2.1⟩

end DecentrationEngine
